import Mathlib

/-!
Verification of the mingus MIDI core: the byte-level track encoder
(`mingus/midi/midi_track.py`), the millisecond-keyed score, playback driver
and persistence snapshot (`mingus/midi/sequencer2.py`), and the score-level
control-change recording (`mingus/containers/track.py`).

Bytes are modelled as natural numbers (each produced value is < 256, enforced
by the encoder's own range asserts), byte strings as `List Nat`.  Python
exceptions are modelled with `Option` for pure byte-producing helpers and with
`PyRes` (which keeps the mutated object state at raise time) for methods that
mutate the `MidiTrack` object.
-/

namespace Mingus

/-! ## Constants from mingus/midi/midi_events.py

`midi_track.py` does `from mingus.midi.midi_events import *`; that module is
not part of the sources under verification, so the constants are modelled from
the spec: the note-on status byte `0x90` fixes `NOTE_ON = 0x9`, the
end-of-track event `00 FF 2F 00` fixes the meta-event prefix `0xFF`, and the
remaining event-type numbers are the Standard MIDI File values the spec's
format description refers to. -/

def NOTE_OFF : Nat := 0x08

def NOTE_ON : Nat := 0x09

def CONTROLLER : Nat := 0x0B

def PROGRAM_CHANGE : Nat := 0x0C

def BANK_SELECT : Nat := 0x00

def META_EVENT : Nat := 0xFF

def SET_TEMPO : Nat := 0x51

/-! ## int_to_varbyte (midi_track.py lines 259-277)

`int_to_varbyte` computes the number of 7-bit groups as
`int(log(max(value, 1), 0x80)) + 1`, builds the groups with
`value >> i * 7 & 0x7F`, reverses them, and sets the continuation bit `0x80`
on every group except the last.  `floorLogAux` below is the exact-real-value
semantics of `int(log(n, b))`, i.e. the floor of the base-`b` logarithm
(written fuel-style so that it evaluates by kernel reduction); CPython's
double-precision `log` agrees with it except on inputs of about 2^49 and
larger, where it can round `log(n)/log(0x80)` up across an integer — that
deviation is the subject of the length-bug theorem below. -/

def floorLogAux (b : Nat) : Nat → Nat → Nat
  | 0, _ => 0
  | fuel + 1, n => if n < b then 0 else floorLogAux b fuel (n / b) + 1

/-- Number of 7-bit groups: `int(log(max(value, 1), 0x80)) + 1` under exact
real-logarithm semantics. -/
def varbyte_length (value : Nat) : Nat :=
  floorLogAux 0x80 (max value 1) (max value 1) + 1

/-- The list `[value >> i * 7 & 0x7F for i in range(length)]`, reversed. -/
def varbyteGroups (length value : Nat) : List Nat :=
  ((List.range length).map (fun i => value >>> (i * 7) &&& 0x7F)).reverse

/-- Set the continuation bit `0x80` on every byte except the last. -/
def setContinuation : List Nat → List Nat
  | [] => []
  | [b] => [b]
  | b :: rest => (b ||| 0x80) :: setContinuation rest

/-- Body of `int_to_varbyte` with the group count as a parameter. -/
def int_to_varbyte_len (length value : Nat) : List Nat :=
  setContinuation (varbyteGroups length value)

/-- `MidiTrack.int_to_varbyte` with the exact-logarithm group count. -/
def int_to_varbyte (value : Nat) : List Nat :=
  int_to_varbyte_len (varbyte_length value) value

/-- Decoding of a big-endian 7-bit-group variable-length quantity: each byte
contributes its low 7 bits, most significant group first. -/
def varbyte_decode (bs : List Nat) : Nat :=
  bs.foldl (fun acc b => acc * 0x80 + (b &&& 0x7F)) 0

/-! ### Correctness facts about the variable-length quantity encoder -/

theorem floorLogAux_bounds (b : Nat) (hb : 2 ≤ b) :
    ∀ fuel n, 1 ≤ n → n ≤ fuel →
      b ^ floorLogAux b fuel n ≤ n ∧ n < b ^ (floorLogAux b fuel n + 1) := by
  intro fuel
  induction fuel with
  | zero => intro n h1 h2; omega
  | succ fuel ih =>
    intro n h1 h2
    by_cases hlt : n < b
    · simp [floorLogAux, hlt]; omega
    · have hbn : b ≤ n := le_of_not_lt hlt
      have hm1 : 1 ≤ n / b := (Nat.one_le_div_iff (by omega)).mpr hbn
      have hmf : n / b ≤ fuel := by
        have h2b : n / b ≤ n / 2 := Nat.div_le_div_left hb (by omega)
        have : n / 2 ≤ fuel := by omega
        omega
      obtain ⟨hlo, hhi⟩ := ih (n / b) hm1 hmf
      have hstep : floorLogAux b (fuel + 1) n = floorLogAux b fuel (n / b) + 1 := by
        simp [floorLogAux, hlt]
      constructor
      · rw [hstep, pow_succ]
        calc b ^ floorLogAux b fuel (n / b) * b ≤ n / b * b :=
              Nat.mul_le_mul_right b hlo
          _ ≤ n := Nat.div_mul_le_self n b
      · rw [hstep, pow_succ]
        exact (Nat.div_lt_iff_lt_mul (by omega)).mp hhi

theorem value_lt_pow_varbyte_length (value : Nat) :
    value < 0x80 ^ varbyte_length value := by
  rcases Nat.eq_zero_or_pos value with h | h
  · subst h; exact pow_pos (by norm_num) _
  · have hmax : max value 1 = value := max_eq_left h
    have := (floorLogAux_bounds 0x80 (by norm_num) (max value 1) (max value 1)
      (le_max_right _ _) le_rfl).2
    rw [hmax] at this
    simpa [varbyte_length, hmax] using this

theorem shift_and_mask (v k : Nat) : v >>> (k * 7) &&& 0x7F = v / 0x80 ^ k % 0x80 := by
  have h7 : (0x7F : Nat) = 2 ^ 7 - 1 := by norm_num
  have hp : (2 : Nat) ^ (k * 7) = 0x80 ^ k := by
    rw [mul_comm, pow_mul]; norm_num
  rw [h7, Nat.and_pow_two_sub_one_eq_mod, Nat.shiftRight_eq_div_pow, hp]

theorem foldl_setContinuation (f : Nat → Nat → Nat)
    (hf : ∀ a b, b ≤ 0x7F → f a (b ||| 0x80) = f a b) :
    ∀ bs acc, (∀ b ∈ bs, b ≤ 0x7F) →
      List.foldl f acc (setContinuation bs) = List.foldl f acc bs := by
  intro bs
  induction bs with
  | nil => intro acc _; rfl
  | cons b rest ih =>
    intro acc hmem
    cases rest with
    | nil => rfl
    | cons c tail =>
      have hb : b ≤ 0x7F := hmem b (by simp)
      have : setContinuation (b :: c :: tail) = (b ||| 0x80) :: setContinuation (c :: tail) := rfl
      rw [this, List.foldl_cons, List.foldl_cons, hf acc b hb]
      exact ih (f acc b) (fun x hx => hmem x (by simp [hx]))

theorem or_mask_cancel (a b : Nat) (hb : b ≤ 0x7F) :
    a * 0x80 + ((b ||| 0x80) &&& 0x7F) = a * 0x80 + (b &&& 0x7F) := by
  have h : ∀ c, c < 0x80 → (c ||| 0x80) &&& 0x7F = c &&& 0x7F := by decide
  rw [h b (by omega)]

theorem varbyte_decode_len (L v : Nat) :
    varbyte_decode (int_to_varbyte_len L v) = v % 0x80 ^ L := by
  have hgroups : ∀ b ∈ varbyteGroups L v, b ≤ 0x7F := by
    intro b hb
    simp only [varbyteGroups, List.mem_reverse, List.mem_map, List.mem_range] at hb
    obtain ⟨i, -, rfl⟩ := hb
    exact Nat.and_le_right
  unfold varbyte_decode int_to_varbyte_len
  rw [foldl_setContinuation _ (fun a b hb => or_mask_cancel a b hb) _ 0 hgroups]
  suffices h : ∀ L acc, List.foldl (fun acc b => acc * 0x80 + (b &&& 0x7F)) acc
      (varbyteGroups L v) = acc * 0x80 ^ L + v % 0x80 ^ L by
    simpa using h L 0
  intro L
  induction L with
  | zero => intro acc; simp [varbyteGroups, Nat.mod_one]
  | succ L ih =>
    intro acc
    have hsplit : varbyteGroups (L + 1) v =
        (v >>> (L * 7) &&& 0x7F) :: varbyteGroups L v := by
      unfold varbyteGroups
      rw [List.range_succ, List.map_append, List.reverse_append]
      rfl
    rw [hsplit, List.foldl_cons, ih]
    have hidem : (v >>> (L * 7) &&& 0x7F) &&& 0x7F = v / 0x80 ^ L % 0x80 := by
      rw [Nat.and_assoc, Nat.and_self, shift_and_mask]
    rw [hidem]
    have hmod : v % 0x80 ^ (L + 1) = v % 0x80 ^ L + 0x80 ^ L * (v / 0x80 ^ L % 0x80) := by
      rw [pow_succ, Nat.mod_mul]
    rw [hmod]
    ring

/-- Round-trip: decoding the encoding returns the value (exact-logarithm group
count, i.e. the intended behaviour of `int_to_varbyte`). -/
theorem varbyte_roundtrip (value : Nat) :
    varbyte_decode (int_to_varbyte value) = value := by
  unfold int_to_varbyte
  rw [varbyte_decode_len]
  exact Nat.mod_eq_of_lt (value_lt_pow_varbyte_length value)

/-- C1: `int_to_varbyte` computes its group count with double-precision
floating-point `log`; at `t = 562949953421311 = 0x80 ^ 7 - 1` CPython evaluates
`int(log(t, 0x80))` to `7` (the quotient of doubles rounds up to `7.0`) instead
of the exact `6`, so the code emits the 8-byte sequence
`80 FF FF FF FF FF FF 7F` carrying a redundant leading continuation byte.  The
sequence still decodes to `t`, but it is not the minimal group sequence: the
7-byte `FF FF FF FF FF FF 7F` — which the exact-logarithm group count yields —
decodes to the same `t`.  This theorem evaluates both group counts at the
failing input. -/
theorem int_to_varbyte_float_length_bug :
    int_to_varbyte_len 8 562949953421311 =
        [0x80, 0xFF, 0xFF, 0xFF, 0xFF, 0xFF, 0xFF, 0x7F] ∧
      varbyte_decode [0x80, 0xFF, 0xFF, 0xFF, 0xFF, 0xFF, 0xFF, 0x7F] = 562949953421311 ∧
      int_to_varbyte 562949953421311 = [0xFF, 0xFF, 0xFF, 0xFF, 0xFF, 0xFF, 0x7F] ∧
      varbyte_decode [0xFF, 0xFF, 0xFF, 0xFF, 0xFF, 0xFF, 0x7F] = 562949953421311 ∧
      int_to_varbyte 0 = [0x00] ∧
      int_to_varbyte 127 = [0x7F] ∧
      int_to_varbyte 128 = [0x81, 0x00] := by
  refine ⟨by decide, by decide, by decide, by decide, by decide, by decide, by decide⟩

/-! ## set_tempo_event (midi_track.py lines 215-219)

`set_tempo_event` computes `mpqn = a2b_hex("%06x" % (60000000 // bpm))` and
returns `delta_time + META_EVENT + SET_TEMPO + b"\x03" + mpqn`.  The format
`"%06x"` produces `max 6 d` hex digits, where `d` is the number of digits of
the value; `a2b_hex` turns each digit pair into one byte and raises
`binascii.Error` on an odd number of digits.  The composite is modelled at the
byte level: the big-endian base-256 bytes when the digit count is even,
failure (`none`) when it is odd. -/

/-- Big-endian base-256 bytes of `n`, `k` bytes wide (low bytes last). -/
def bytesBE : Nat → Nat → List Nat
  | 0, _ => []
  | k + 1, n => bytesBE k (n / 0x100) ++ [n % 0x100]

/-- Number of hex digits `"%x" % n` produces (exact-logarithm semantics). -/
def numHexDigits (n : Nat) : Nat :=
  floorLogAux 0x10 (max n 1) (max n 1) + 1

/-- Byte-level model of `a2b_hex("%06x" % n)`. -/
def a2b_hex_pad6 (n : Nat) : Option (List Nat) :=
  let digits := max 6 (numHexDigits n)
  if digits % 2 = 0 then some (bytesBE (digits / 2) n) else none

/-- The value a big-endian byte string denotes. -/
def beValue (bs : List Nat) : Nat :=
  bs.foldl (fun acc b => acc * 0x100 + b) 0

/-- `MidiTrack.set_tempo_event`: delta time, meta prefix, tempo type byte,
payload length 3, then the microseconds-per-quarter-note bytes. -/
def set_tempo_event (delta_time : List Nat) (bpm : Nat) : Option (List Nat) :=
  (a2b_hex_pad6 (60000000 / bpm)).map
    (fun mpqn => delta_time ++ [META_EVENT, SET_TEMPO, 0x03] ++ mpqn)

/-- C2 counterexample: at `bpm = 1` the quotient `60000000` has seven hex
digits, `"%06x"` does not pad it to an even length, and `a2b_hex` raises
`binascii.Error` — no tempo event is produced at all, refuting the claim for
that positive `bpm` (the same happens for `bpm = 2` and `3`). -/
theorem set_tempo_event_low_bpm_counterexample :
    ¬ ∃ p, set_tempo_event [0x00] 1 = some ([0x00] ++ [META_EVENT, SET_TEMPO, 0x03] ++ p) ∧
      p.length = 3 ∧ beValue p = 60000000 / 1 := by
  rintro ⟨p, hp, -, -⟩
  have hnone : set_tempo_event [0x00] 1 = none := by decide
  rw [hnone] at hp
  exact Option.noConfusion hp

theorem beValue_bytesBE (k : Nat) : ∀ n, beValue (bytesBE k n) = n % 0x100 ^ k := by
  suffices h : ∀ k acc n, List.foldl (fun acc b => acc * 0x100 + b) acc (bytesBE k n) =
      acc * 0x100 ^ k + n % 0x100 ^ k by
    intro n
    simpa using h k 0 n
  intro k
  induction k with
  | zero => intro acc n; simp [bytesBE, Nat.mod_one]
  | succ k ih =>
    intro acc n
    show List.foldl _ acc (bytesBE k (n / 0x100) ++ [n % 0x100]) = _
    rw [List.foldl_append, ih]
    have hmod : n % 0x100 ^ (k + 1) = n % 0x100 + 0x100 * (n / 0x100 % 0x100 ^ k) := by
      have h : (0x100 : Nat) ^ (k + 1) = 0x100 * 0x100 ^ k := by rw [pow_succ, mul_comm]
      rw [h, Nat.mod_mul]
    simp only [List.foldl_cons, List.foldl_nil]
    rw [hmod]
    ring

theorem bytesBE_length (k : Nat) : ∀ n, (bytesBE k n).length = k := by
  induction k with
  | zero => intro n; rfl
  | succ k ih => intro n; simp [bytesBE, ih]

/-- C2 (amended): for every `bpm ≥ 4` — exactly the tempos for which
`60000000 // bpm` fits in six hex digits — `set_tempo_event` emits the delta
time, the meta-event prefix, the tempo type byte, payload length 3, and a
3-byte big-endian payload whose value is `60000000 / bpm`. -/
theorem set_tempo_event_bytes (delta_time : List Nat) (bpm : Nat) (h : 4 ≤ bpm) :
    set_tempo_event delta_time bpm =
        some (delta_time ++ [META_EVENT, SET_TEMPO, 0x03] ++ bytesBE 3 (60000000 / bpm)) ∧
      (bytesBE 3 (60000000 / bpm)).length = 3 ∧
      beValue (bytesBE 3 (60000000 / bpm)) = 60000000 / bpm := by
  set q : Nat := 60000000 / bpm with hq
  have hqle : q ≤ 15000000 := by
    have hstep : 60000000 / bpm ≤ 60000000 / 4 := Nat.div_le_div_left h (by norm_num)
    simpa [hq] using hstep
  have hqlt : q < 0x10 ^ 6 := by
    calc q ≤ 15000000 := hqle
      _ < 0x10 ^ 6 := by norm_num
  have hdig : numHexDigits q ≤ 6 := by
    have hb := floorLogAux_bounds 0x10 (by norm_num) (max q 1) (max q 1)
      (le_max_right _ _) le_rfl
    have hlt : max q 1 < 0x10 ^ 6 := by
      rcases Nat.eq_zero_or_pos q with h0 | h0
      · simp [h0]
      · rw [max_eq_left h0]; exact hqlt
    have hflt : floorLogAux 0x10 (max q 1) (max q 1) < 6 := by
      by_contra hcon
      push_neg at hcon
      have : (0x10 : Nat) ^ 6 ≤ 0x10 ^ floorLogAux 0x10 (max q 1) (max q 1) :=
        Nat.pow_le_pow_right (by norm_num) hcon
      omega
    unfold numHexDigits
    omega
  have hmax : max 6 (numHexDigits q) = 6 := max_eq_left hdig
  have hsome : a2b_hex_pad6 q = some (bytesBE 3 q) := by
    unfold a2b_hex_pad6
    rw [hmax]
    norm_num
  refine ⟨?_, bytesBE_length 3 q, ?_⟩
  · unfold set_tempo_event
    rw [← hq, hsome]
    rfl
  · rw [beValue_bytesBE]
    exact Nat.mod_eq_of_lt (by calc q < 0x10 ^ 6 := hqlt
                                 _ ≤ 0x100 ^ 3 := by norm_num)

/-- Witness for the amended C2 at the spec's own concrete case: `bpm = 120`
yields the payload `07 A1 20` (500000 microseconds per quarter note). -/
theorem set_tempo_event_bytes_witness :
    set_tempo_event [0x00] 120 =
      some [0x00, 0xFF, 0x51, 0x03, 0x07, 0xA1, 0x20] := by
  have h := (set_tempo_event_bytes [0x00] 120 (by norm_num)).1
  rw [h]
  rfl

/-! ## The MidiTrack object and its note events (midi_track.py lines 37-138)

A note is consumed through `note.channel`, `note.velocity` and `int(note)`
(`note.py`: octave times 12 plus the pitch class, here pre-computed in the
`pitch` field).  `MidiTrackState` holds the mutable attributes the modelled
methods touch.  A Python method that can raise is modelled as
`PyRes MidiTrackState`: `ok` is normal return, `err` is an exception carrying
the object state at raise time (mutations before the raise are kept, exactly
as on the Python object). -/

structure MNote where
  pitch : Nat
  channel : Nat
  velocity : Nat
deriving DecidableEq

structure MidiTrackState where
  track_data : List Nat
  delta_time : List Nat
  delay : Nat
  bpm : Nat
  change_instrument : Bool
  instrument : Nat
deriving DecidableEq

inductive PyRes (α : Type) where
  | ok (val : α)
  | err (val : α)
deriving DecidableEq

/-- `MidiTrack.midi_event` (lines 162-174): asserts the ranges, then returns
`delta_time` followed by the status byte `channel | (event_type << 4)` and the
one or two data bytes.  A failed assert is `none` (nothing returned). -/
def midi_event (delta_time : List Nat) (event_type channel param1 : Nat)
    (param2 : Option Nat) : Option (List Nat) :=
  if event_type < 16 ∧ channel < 16 ∧ param1 ≤ 0x7F ∧ param2.getD 0 ≤ 0x7F then
    some (delta_time ++ [channel ||| (event_type <<< 4), param1] ++ param2.toList)
  else none

def note_on (delta_time : List Nat) (channel note velocity : Nat) : Option (List Nat) :=
  midi_event delta_time NOTE_ON channel note (some velocity)

def note_off (delta_time : List Nat) (channel note velocity : Nat) : Option (List Nat) :=
  midi_event delta_time NOTE_OFF channel note (some velocity)

def controller_event (delta_time : List Nat) (channel contr_nr contr_val : Nat) :
    Option (List Nat) :=
  midi_event delta_time CONTROLLER channel contr_nr (some contr_val)

/-- `select_bank` passes `(BANK_SELECT, channel, bank)` to `controller_event`
in that order, as the source does. -/
def select_bank (delta_time : List Nat) (channel bank : Nat) : Option (List Nat) :=
  controller_event delta_time BANK_SELECT channel bank

def program_change_event (delta_time : List Nat) (channel instr : Nat) :
    Option (List Nat) :=
  midi_event delta_time PROGRAM_CHANGE channel instr none

/-- `MidiTrack.set_instrument` (lines 140-143): appends the bank-select bytes,
then the program-change bytes; an assert failure in the second append leaves
the first append in place. -/
def set_instrument (channel instr bank : Nat) (st : MidiTrackState) :
    PyRes MidiTrackState :=
  match select_bank st.delta_time channel bank with
  | none => .err st
  | some b1 =>
    let st1 := { st with track_data := st.track_data ++ b1 }
    match program_change_event st1.delta_time channel instr with
    | none => .err st1
    | some b2 => .ok { st1 with track_data := st1.track_data ++ b2 }

/-- `MidiTrack.play_Note` (lines 57-72): flushes a pending instrument change
first, then asserts `0 <= velocity <= 0x7F`, then appends
`note_on(channel, int(note) + 12, velocity)`. -/
def play_Note (note : MNote) (st : MidiTrackState) : PyRes MidiTrackState :=
  match (if st.change_instrument then
          match set_instrument note.channel st.instrument 1 st with
          | .err s => PyRes.err s
          | .ok s => PyRes.ok { s with change_instrument := false }
         else .ok st) with
  | .err s => .err s
  | .ok s =>
    if note.velocity ≤ 0x7F then
      match note_on s.delta_time note.channel (note.pitch + 12) note.velocity with
      | none => .err s
      | some b => .ok { s with track_data := s.track_data ++ b }
    else .err s

/-- `MidiTrack.stop_Note` (lines 122-126): appends
`note_off(channel, int(note) + 12, velocity)`; no velocity assert of its own. -/
def stop_Note (note : MNote) (st : MidiTrackState) : PyRes MidiTrackState :=
  match note_off st.delta_time note.channel (note.pitch + 12) note.velocity with
  | none => .err st
  | some b => .ok { st with track_data := st.track_data ++ b }

/-- `set_deltatime` called with an `int` argument (line 193-200). -/
def set_deltatime_int (n : Nat) (st : MidiTrackState) : MidiTrackState :=
  { st with delta_time := int_to_varbyte n }

/-- Sequential play of a list of notes, stopping at the first exception, as a
Python list comprehension over `play_Note` does. -/
def playNotes : List MNote → MidiTrackState → PyRes MidiTrackState
  | [], st => .ok st
  | n :: ns, st =>
    match play_Note n st with
    | .err s => .err s
    | .ok s => playNotes ns s

def stopNotes : List MNote → MidiTrackState → PyRes MidiTrackState
  | [], st => .ok st
  | n :: ns, st =>
    match stop_Note n st with
    | .err s => .err s
    | .ok s => stopNotes ns s

/-- `MidiTrack.play_NoteContainer` (lines 74-86): one note or fewer plays
as-is; otherwise the first note plays with the pending delta time, the delta
time is reset to 0, and the remaining notes play. -/
def play_NoteContainer (nc : List MNote) (st : MidiTrackState) : PyRes MidiTrackState :=
  if nc.length ≤ 1 then playNotes nc st
  else
    match nc with
    | [] => .ok st
    | n :: rest =>
      match play_Note n st with
      | .err s => .err s
      | .ok s => playNotes rest (set_deltatime_int 0 s)

/-- `MidiTrack.stop_NoteContainer` (lines 128-138), symmetric to
`play_NoteContainer` with note-off events. -/
def stop_NoteContainer (nc : List MNote) (st : MidiTrackState) : PyRes MidiTrackState :=
  if nc.length ≤ 1 then stopNotes nc st
  else
    match nc with
    | [] => .ok st
    | n :: rest =>
      match stop_Note n st with
      | .err s => .err s
      | .ok s => stopNotes rest (set_deltatime_int 0 s)

/-- The three bytes of a note-on event for a note (status, shifted pitch,
velocity). -/
def onBytes (n : MNote) : List Nat :=
  [n.channel ||| (NOTE_ON <<< 4), n.pitch + 12, n.velocity]

/-- The three bytes of a note-off event for a note. -/
def offBytes (n : MNote) : List Nat :=
  [n.channel ||| (NOTE_OFF <<< 4), n.pitch + 12, n.velocity]

/-- A note is valid when its channel, shifted pitch and velocity are in range. -/
def validNote (n : MNote) : Prop :=
  n.channel < 16 ∧ n.pitch + 12 ≤ 0x7F ∧ n.velocity ≤ 0x7F

instance (n : MNote) : Decidable (validNote n) := by
  unfold validNote; infer_instance

theorem midi_event_ok (dt : List Nat) (et ch p1 : Nat) (p2 : Option Nat)
    (h : et < 16) (hch : ch < 16) (hp : p1 ≤ 0x7F) (hp2 : p2.getD 0 ≤ 0x7F) :
    midi_event dt et ch p1 p2 = some (dt ++ [ch ||| (et <<< 4), p1] ++ p2.toList) := by
  unfold midi_event
  rw [if_pos ⟨h, hch, hp, hp2⟩]

theorem midi_event_bad (dt : List Nat) (et ch p1 : Nat) (p2 : Option Nat)
    (h : ¬(et < 16 ∧ ch < 16 ∧ p1 ≤ 0x7F ∧ p2.getD 0 ≤ 0x7F)) :
    midi_event dt et ch p1 p2 = none := by
  unfold midi_event
  rw [if_neg h]

theorem play_Note_valid (n : MNote) (st : MidiTrackState)
    (hci : st.change_instrument = false) (hv : validNote n) :
    play_Note n st = .ok { st with track_data := st.track_data ++ st.delta_time ++ onBytes n } := by
  obtain ⟨h1, h2, h3⟩ := hv
  have hev : note_on st.delta_time n.channel (n.pitch + 12) n.velocity =
      some (st.delta_time ++ [n.channel ||| (NOTE_ON <<< 4), n.pitch + 12] ++ [n.velocity]) :=
    midi_event_ok _ _ _ _ _ (by norm_num [NOTE_ON]) h1 h2 (by simpa using h3)
  unfold play_Note
  rw [hci]
  simp only [Bool.false_eq_true, if_false, if_pos h3, hev, onBytes]
  simp [hci]

theorem stop_Note_valid (n : MNote) (st : MidiTrackState) (hv : validNote n) :
    stop_Note n st = .ok { st with track_data := st.track_data ++ st.delta_time ++ offBytes n } := by
  obtain ⟨h1, h2, h3⟩ := hv
  have hev : note_off st.delta_time n.channel (n.pitch + 12) n.velocity =
      some (st.delta_time ++ [n.channel ||| (NOTE_OFF <<< 4), n.pitch + 12] ++ [n.velocity]) :=
    midi_event_ok _ _ _ _ _ (by norm_num [NOTE_OFF]) h1 h2 (by simpa using h3)
  unfold stop_Note
  rw [hev]
  simp [offBytes]

/-- C3: with channel in `[0,15]`, shifted pitch `int(note) + 12` in `[0,127]`
and velocity in `[0,127]`, and no pending instrument change, `play_Note`
(resp. `stop_Note`) appends exactly the pending delta-time prefix, the status
byte `channel | (event_type << 4)`, the shifted pitch and the velocity; and an
out-of-range data byte makes the event constructor fail rather than emit
clamped bytes. -/
theorem play_Note_event_bytes (st : MidiTrackState) (n : MNote)
    (hci : st.change_instrument = false) (hch : n.channel < 16)
    (hp : n.pitch + 12 ≤ 0x7F) (hv : n.velocity ≤ 0x7F) :
    play_Note n st = .ok { st with track_data :=
        st.track_data ++ st.delta_time ++
          [n.channel ||| (NOTE_ON <<< 4), n.pitch + 12, n.velocity] } ∧
      stop_Note n st = .ok { st with track_data :=
        st.track_data ++ st.delta_time ++
          [n.channel ||| (NOTE_OFF <<< 4), n.pitch + 12, n.velocity] } ∧
      (∀ p v, 0x7F < v →
        note_on st.delta_time n.channel p v = none ∧
        note_off st.delta_time n.channel p v = none) ∧
      (∀ p v, 0x7F < p →
        note_on st.delta_time n.channel p v = none ∧
        note_off st.delta_time n.channel p v = none) := by
  refine ⟨play_Note_valid n st hci ⟨hch, hp, hv⟩, stop_Note_valid n st ⟨hch, hp, hv⟩,
    ?_, ?_⟩
  · intro p v hbad
    exact ⟨midi_event_bad _ _ _ _ _ (by rintro ⟨-, -, -, h4⟩; simp at h4; omega),
      midi_event_bad _ _ _ _ _ (by rintro ⟨-, -, -, h4⟩; simp at h4; omega)⟩
  · intro p v hbad
    exact ⟨midi_event_bad _ _ _ _ _ (by rintro ⟨-, -, h3, -⟩; omega),
      midi_event_bad _ _ _ _ _ (by rintro ⟨-, -, h3, -⟩; omega)⟩

/-- Witness for C3 at a concrete note: channel 1, shifted pitch 60, velocity
100, delta time `0x00`. -/
theorem play_Note_event_bytes_witness :
    play_Note ⟨48, 1, 100⟩ ⟨[], [0x00], 0, 120, false, 1⟩ =
      .ok ⟨[0x00, 0x91, 60, 100], [0x00], 0, 120, false, 1⟩ := by
  have h := (play_Note_event_bytes ⟨[], [0x00], 0, 120, false, 1⟩ ⟨48, 1, 100⟩
    rfl (by norm_num) (by norm_num) (by norm_num)).1
  rw [h]
  rfl

/-- Concatenation of the images of a list, used to describe appended event
byte groups and dispatched sink-call groups. -/
def concatMapB {α β : Type} (f : α → List β) : List α → List β
  | [] => []
  | a :: l => f a ++ concatMapB f l

theorem playNotes_valid : ∀ (ns : List MNote) (st : MidiTrackState),
    st.change_instrument = false → (∀ n ∈ ns, validNote n) →
    playNotes ns st = .ok { st with
      track_data := st.track_data ++ concatMapB (fun n => st.delta_time ++ onBytes n) ns } := by
  intro ns
  induction ns with
  | nil => intro st hci hv; simp [playNotes, concatMapB]
  | cons n ns ih =>
    intro st hci hv
    have hn := hv n (by simp)
    have hstep := play_Note_valid n st hci hn
    unfold playNotes
    rw [hstep]
    show playNotes ns { st with track_data := st.track_data ++ st.delta_time ++ onBytes n } = _
    rw [ih _ (by simp [hci]) (fun m hm => hv m (by simp [hm]))]
    simp [concatMapB]

theorem stopNotes_valid : ∀ (ns : List MNote) (st : MidiTrackState),
    (∀ n ∈ ns, validNote n) →
    stopNotes ns st = .ok { st with
      track_data := st.track_data ++ concatMapB (fun n => st.delta_time ++ offBytes n) ns } := by
  intro ns
  induction ns with
  | nil => intro st hv; simp [stopNotes, concatMapB]
  | cons n ns ih =>
    intro st hv
    have hstep := stop_Note_valid n st (hv n (by simp))
    unfold stopNotes
    rw [hstep]
    show stopNotes ns { st with track_data := st.track_data ++ st.delta_time ++ offBytes n } = _
    rw [ih _ (fun m hm => hv m (by simp [hm]))]
    simp [concatMapB]

/-- C4: for a container of at least two valid notes (no instrument change
pending), `play_NoteContainer` emits the first note-on behind the pending
delta time and every further note-on of the container behind delta time 0,
and `stop_NoteContainer` does the same with note-off events; both leave the
encoder's delta time at 0. -/
theorem play_NoteContainer_chord_deltas (st : MidiTrackState) (n1 n2 : MNote)
    (rest : List MNote) (hci : st.change_instrument = false)
    (hvalid : ∀ n ∈ n1 :: n2 :: rest, validNote n) :
    play_NoteContainer (n1 :: n2 :: rest) st =
        .ok { st with
          track_data := st.track_data ++ st.delta_time ++ onBytes n1 ++
            concatMapB (fun n => [0x00] ++ onBytes n) (n2 :: rest),
          delta_time := [0x00] } ∧
      stop_NoteContainer (n1 :: n2 :: rest) st =
        .ok { st with
          track_data := st.track_data ++ st.delta_time ++ offBytes n1 ++
            concatMapB (fun n => [0x00] ++ offBytes n) (n2 :: rest),
          delta_time := [0x00] } := by
  have hlen : ¬ (n1 :: n2 :: rest).length ≤ 1 := by simp
  have hzero : int_to_varbyte 0 = [0x00] := rfl
  constructor
  · have h1 := play_Note_valid n1 st hci (hvalid n1 (by simp))
    unfold play_NoteContainer
    rw [if_neg hlen]
    simp only [h1]
    have h2 := playNotes_valid (n2 :: rest)
      (set_deltatime_int 0 { st with track_data := st.track_data ++ st.delta_time ++ onBytes n1 })
      (by simp [set_deltatime_int, hci]) (fun m hm => hvalid m (by simp at hm; simp [hm]))
    rw [h2]
    simp [set_deltatime_int, hzero]
  · have h1 := stop_Note_valid n1 st (hvalid n1 (by simp))
    unfold stop_NoteContainer
    rw [if_neg hlen]
    simp only [h1]
    have h2 := stopNotes_valid (n2 :: rest)
      (set_deltatime_int 0 { st with track_data := st.track_data ++ st.delta_time ++ offBytes n1 })
      (fun m hm => hvalid m (by simp at hm; simp [hm]))
    rw [h2]
    simp [set_deltatime_int, hzero]

/-- Witness for C4: a two-note chord on channel 1 after a pending delta time
of 96 ticks; the second note-on is emitted behind delta time 0. -/
theorem play_NoteContainer_chord_deltas_witness :
    play_NoteContainer [⟨48, 1, 100⟩, ⟨52, 1, 100⟩] ⟨[], [0x60], 0, 120, false, 1⟩ =
      .ok ⟨[0x60, 0x91, 60, 100, 0x00, 0x91, 64, 100], [0x00], 0, 120, false, 1⟩ := by
  have h := (play_NoteContainer_chord_deltas ⟨[], [0x60], 0, 120, false, 1⟩
    ⟨48, 1, 100⟩ ⟨52, 1, 100⟩ [] rfl (by decide)).1
  rw [h]
  rfl

/-- C7 counterexample: with a pending instrument change (as `play_Track` sets
up for any track with a numbered instrument), `play_Note` on a note with
velocity 200 appends the bank-select and program-change bytes to `track_data`
and only then hits the velocity assert — the buffer is not left as it was
before the call. -/
theorem play_Note_pending_instrument_counterexample :
    play_Note ⟨48, 0, 200⟩ ⟨[], [0x00], 0, 120, true, 5⟩ =
        .err ⟨[0x00, 0xB0, 0x00, 0x01, 0x00, 0xC0, 0x05], [0x00], 0, 120, false, 5⟩ ∧
      ([0x00, 0xB0, 0x00, 0x01, 0x00, 0xC0, 0x05] : List Nat) ≠ [] := by
  refine ⟨by decide, by decide⟩

/-- C7 (amended): when no instrument change is pending, `play_Note` on a note
whose velocity is outside `[0,127]` raises before appending anything, leaving
the whole encoder state — in particular `track_data` — exactly as it was.
(With a pending instrument change the flushed bank-select/program-change bytes
do land in `track_data` first, as the counterexample shows, but no byte of the
malformed note event itself is ever written.) -/
theorem play_Note_bad_velocity_no_flush (st : MidiTrackState) (n : MNote)
    (hci : st.change_instrument = false) (hv : 0x7F < n.velocity) :
    play_Note n st = .err st := by
  unfold play_Note
  rw [hci]
  simp only [Bool.false_eq_true, if_false]
  rw [if_neg (by omega)]

/-- Witness for the amended C7: velocity 200 on a clean encoder state fails
with the state unchanged. -/
theorem play_Note_bad_velocity_no_flush_witness :
    play_Note ⟨48, 0, 200⟩ ⟨[], [0x00], 0, 120, false, 1⟩ =
      .err ⟨[], [0x00], 0, 120, false, 1⟩ :=
  play_Note_bad_velocity_no_flush ⟨[], [0x00], 0, 120, false, 1⟩ ⟨48, 0, 200⟩ rfl (by norm_num)

/-! ## The millisecond-keyed score (sequencer2.py, containers/track.py)

The score is a dict from integer milliseconds to lists of event dicts; it is
modelled as an insertion-ordered association list with unique keys.  The three
event kinds are the ones `play_score` dispatches on; the `isinstance(...,
PercussionNote)` test is the `percussion` flag.  Notes and controls are
carried as numbers (`int(note)` / `control.value`). -/

inductive ScoreEvent where
  | start_note (percussion : Bool) (note channel velocity : Nat)
  | end_note (percussion : Bool) (note channel : Nat)
  | control_change (channel control value : Nat)
deriving DecidableEq

def Score : Type := List (Int × List ScoreEvent)

instance : DecidableEq Score := by
  unfold Score; infer_instance

/-- Python dict `score.setdefault(t, []).append(event)`: append to the bucket
of key `t`, creating the bucket at the end of the insertion order if absent. -/
def setdefault_append (t : Int) (e : ScoreEvent) : Score → Score
  | [] => [(t, [e])]
  | (k, evs) :: rest =>
    if k = t then (k, evs ++ [e]) :: rest else (k, evs) :: setdefault_append t e rest

/-- First-match lookup in the association list (dict lookup). -/
def lookupScore (t : Int) : Score → Option (List ScoreEvent)
  | [] => none
  | (k, evs) :: rest => if k = t then some evs else lookupScore t rest

/-- Python `round` on an exact rational: round half to even.  (`track.py`
computes `round(self.beat / bpm * 60000.0)` on floats; the inputs used in the
concrete theorems below are exactly representable, so the rational value
agrees with the float one.) -/
def pyRound (q : ℚ) : Int :=
  if q - (⌊q⌋ : ℚ) < 1 / 2 then ⌊q⌋
  else if 1 / 2 < q - (⌊q⌋ : ℚ) then ⌊q⌋ + 1
  else if ⌊q⌋ % 2 = 0 then ⌊q⌋ else ⌊q⌋ + 1

theorem pyRound_low (q : ℚ) (f : Int) (hf : ⌊q⌋ = f) (hr : q - (f : ℚ) < 1 / 2) :
    pyRound q = f := by
  unfold pyRound
  rw [hf, if_pos hr]

/-- `ControlChangeEvent.put_into_score` (track.py lines 51-59): the beat is
converted to milliseconds with `round((beat / bpm) * 60000.0)` and the
control-change dict is appended to that timestamp's bucket. -/
def put_into_score (beat bpm : ℚ) (channel control value : Nat) (score : Score) : Score :=
  let t : Int := pyRound (beat / bpm * 60000)
  setdefault_append t (.control_change channel control value) score

/-- C9 counterexample: recording a control change at beat `-1` (bpm 128) is
not rejected — the score gains a bucket at the negative timestamp `-469`
(`round(-468.75)`), refuting the claim that negative timestamps are rejected
at record time. -/
theorem pyRound_neg_eval : pyRound ((-1 : ℚ) / 128 * 60000) = -469 := by
  have hq : ((-1 : ℚ) / 128 * 60000) = -1875 / 4 := by norm_num
  rw [hq]
  refine pyRound_low _ _ ?_ (by norm_num)
  rw [Int.floor_eq_iff]
  constructor <;> norm_num

theorem put_into_score_negative_counterexample :
    put_into_score (-1) 128 1 7 50 [] = [(-469, [.control_change 1 7 50])] ∧
      (-469 : Int) < 0 := by
  constructor
  · show setdefault_append (pyRound ((-1 : ℚ) / 128 * 60000)) (.control_change 1 7 50) [] = _
    rw [pyRound_neg_eval]
    decide
  · decide

theorem lookupScore_setdefault_append (t : Int) (e : ScoreEvent) :
    ∀ s : Score, lookupScore t (setdefault_append t e s) =
      some ((lookupScore t s).getD [] ++ [e]) := by
  intro s
  induction s with
  | nil => simp [setdefault_append, lookupScore]
  | cons b rest ih =>
    obtain ⟨k, evs⟩ := b
    by_cases hk : k = t
    · subst hk
      simp [setdefault_append, lookupScore]
    · simp [setdefault_append, lookupScore, hk, ih]

theorem lookupScore_setdefault_append_other (t : Int) (e : ScoreEvent) (k : Int)
    (hk : k ≠ t) : ∀ s : Score,
      lookupScore k (setdefault_append t e s) = lookupScore k s := by
  intro s
  induction s with
  | nil => simp [setdefault_append, lookupScore, Ne.symm hk]
  | cons b rest ih =>
    obtain ⟨k1, evs⟩ := b
    by_cases h1 : k1 = t
    · simp only [setdefault_append, if_pos h1, lookupScore]
      have h3 : ¬(k1 = k) := fun h => hk (h ▸ h1)
      rw [if_neg h3, if_neg h3]
    · simp only [setdefault_append, if_neg h1, lookupScore]
      by_cases h2 : k1 = k
      · rw [if_pos h2, if_pos h2]
      · rw [if_neg h2, if_neg h2, ih]

/-- C9 (amended): `put_into_score` performs no timestamp validation.  For
every beat and bpm — including combinations yielding a negative millisecond
timestamp — the event is appended to the bucket of the rounded timestamp,
creating the bucket if absent and preserving the order of events already in
it, and every other bucket is untouched. -/
theorem put_into_score_appends (beat bpm : ℚ) (ch c v : Nat) (score : Score) :
    lookupScore (pyRound (beat / bpm * 60000)) (put_into_score beat bpm ch c v score) =
        some ((lookupScore (pyRound (beat / bpm * 60000)) score).getD [] ++
          [.control_change ch c v]) ∧
      ∀ k, k ≠ pyRound (beat / bpm * 60000) →
        lookupScore k (put_into_score beat bpm ch c v score) = lookupScore k score := by
  refine ⟨lookupScore_setdefault_append _ _ score, ?_⟩
  intro k hk
  exact lookupScore_setdefault_append_other _ _ k hk score

/-- Witness for the amended C9: a control change recorded at 1000 ms lands in
a fresh bucket `(1000, [...])` appended after the existing bucket. -/
theorem put_into_score_appends_witness :
    lookupScore 1000 (put_into_score 2 120 1 7 50 [(0, [.control_change 1 7 1])]) =
      some [.control_change 1 7 50] := by
  have h := (put_into_score_appends 2 120 1 7 50 [(0, [.control_change 1 7 1])]).1
  have ht : pyRound ((2 : ℚ) / 120 * 60000) = 1000 := by
    have hq : ((2 : ℚ) / 120 * 60000) = 1000 := by norm_num
    rw [hq]
    refine pyRound_low _ _ ?_ (by norm_num)
    rw [Int.floor_eq_iff]
    constructor <;> norm_num
  rw [ht] at h
  rw [h]
  decide

/-! ## play_score (sequencer2.py lines 62-101)

The trace of calls `play_score` makes on the synth sink.  A wait of `dt`
milliseconds is the call `synth.sleep(dt / 1000.0)`; the trace records the
millisecond count `dt` (the division by 1000.0 is the unit conversion to the
sink's native seconds).  The closing `synth.sleep(2)` — two seconds — is
recorded as 2000 milliseconds. -/

inductive SinkCall where
  | set_instrument (channel program bank : Nat)
  | sleep (ms : Int)
  | play_note (note channel velocity : Nat)
  | play_percussion_note (note channel velocity : Nat)
  | stop_note (note channel : Nat)
  | stop_percussion_note (note channel : Nat)
  | control_change (channel control value : Nat)
deriving DecidableEq

/-- Milliseconds of the closing `synth.sleep(2)` that prevents cutoff. -/
def drainMs : Int := 2000

/-- Dispatch of one event dict inside the per-timestamp loop body: the
`event['func']` branches of lines 80-98. -/
def dispatch1 : ScoreEvent → List SinkCall
  | .start_note true n ch v => [.play_percussion_note n ch v]
  | .start_note false n ch v => [.play_note n ch v]
  | .end_note true n ch => [.stop_percussion_note n ch]
  | .end_note false n ch => [.stop_note n ch]
  | .control_change ch c v => [.control_change ch c v]

def dispatchBucket (evs : List ScoreEvent) : List SinkCall :=
  concatMapB dispatch1 evs

/-- Ascending insertion by key, building the sorted key order that
`sortedcontainers.SortedDict(self.score)` iterates in. -/
def insertBucket (x : Int × List ScoreEvent) : Score → Score
  | [] => [x]
  | y :: ys => if x.1 ≤ y.1 then x :: y :: ys else y :: insertBucket x ys

def sortScore (s : Score) : Score := s.foldr insertBucket []

/-- One poll of the optional cancellation predicate (`if stop_func and
stop_func()`), at poll index `i`. -/
def pollStop (stop : Option (Nat → Bool)) (i : Nat) : Bool :=
  match stop with
  | none => false
  | some f => f i

/-- The `for start_time, events in score.items()` loop of lines 71-100, with
the virtual-time cursor `the_time` and the poll index; `break` falls through
to the closing drain sleep of line 101, which also runs when the loop ends
normally. -/
def playLoop (stop : Option (Nat → Bool)) : Nat → Int → Score → List SinkCall
  | _, _, [] => [.sleep drainMs]
  | i, the_time, (s, evs) :: rest =>
    if pollStop stop i then [.sleep drainMs]
    else
      (if 0 < s - the_time then [.sleep (s - the_time)] else []) ++
        dispatchBucket evs ++ playLoop stop (i + 1) s rest

def instrumentCalls (instruments : List (Nat × Nat × Nat)) : List SinkCall :=
  instruments.map (fun x => .set_instrument x.1 x.2.1 x.2.2)

/-- `Sequencer.play_score`: instrument setup calls from `self.instruments`
(channel, program number, bank), then the timed loop over the sorted score,
then the drain sleep. -/
def play_score (instruments : List (Nat × Nat × Nat)) (score : Score)
    (stop : Option (Nat → Bool)) : List SinkCall :=
  instrumentCalls instruments ++ playLoop stop 0 0 (sortScore score)

/-- Modelled from the spec: the playback protocol of section 4.3 — cursor
initialized to 0, `wait = timestamp - cursor`, suspend only when `wait > 0`,
advance the cursor, dispatch the bucket in order, and hold for the fixed
drain delay after the last timestamp. -/
def playbackSpec : Int → Score → List SinkCall
  | _, [] => [.sleep drainMs]
  | cursor, (ts, evs) :: rest =>
    (if 0 < ts - cursor then [.sleep (ts - cursor)] else []) ++
      dispatchBucket evs ++ playbackSpec ts rest

theorem playLoop_none (l : Score) : ∀ i t, playLoop none i t l = playbackSpec t l := by
  induction l with
  | nil => intro i t; rfl
  | cons b rest ih =>
    intro i t
    obtain ⟨s, evs⟩ := b
    show (if pollStop none i then _ else _) = _
    rw [if_neg (by simp [pollStop])]
    unfold playbackSpec
    rw [ih]

theorem insertBucket_perm (x : Int × List ScoreEvent) :
    ∀ l : Score, List.Perm (insertBucket x l) (x :: l) := by
  intro l
  induction l with
  | nil => simp [insertBucket]
  | cons y ys ih =>
    unfold insertBucket
    by_cases h : x.1 ≤ y.1
    · rw [if_pos h]
    · rw [if_neg h]
      exact (List.Perm.cons y ih).trans (List.Perm.swap x y ys)

theorem sortScore_perm (l : Score) : List.Perm (sortScore l) l := by
  induction l with
  | nil => rfl
  | cons b rest ih =>
    show List.Perm (insertBucket b (sortScore rest)) (b :: rest)
    exact (insertBucket_perm b (sortScore rest)).trans (List.Perm.cons b ih)

/-- Keys appear in non-decreasing order. -/
def keySorted : Score → Prop :=
  List.Sorted (fun a b => a.1 ≤ b.1)

theorem insertBucket_sorted (x : Int × List ScoreEvent) :
    ∀ l : Score, keySorted l → keySorted (insertBucket x l) := by
  intro l
  induction l with
  | nil => intro _; simp [insertBucket, keySorted]
  | cons y ys ih =>
    intro hs
    obtain ⟨hy, hys⟩ := List.pairwise_cons.mp hs
    unfold insertBucket
    by_cases h : x.1 ≤ y.1
    · rw [if_pos h]
      refine List.pairwise_cons.mpr ⟨?_, hs⟩
      intro z hz
      rcases List.mem_cons.mp hz with rfl | hz
      · exact h
      · exact le_trans h (hy z hz)
    · rw [if_neg h]
      refine List.pairwise_cons.mpr ⟨?_, ih hys⟩
      intro z hz
      rcases List.mem_cons.mp ((insertBucket_perm x ys).mem_iff.mp hz) with rfl | hz
      · omega
      · exact hy z hz

theorem sortScore_sorted (l : Score) : keySorted (sortScore l) := by
  induction l with
  | nil => simp [sortScore, keySorted]
  | cons b rest ih => exact insertBucket_sorted b (sortScore rest) ih

/-- C5: without a cancellation predicate, `play_score` is exactly the
instrument-setup calls followed by the spec's driving protocol (cursor at 0,
sleep only on positive waits, cursor advanced to each timestamp, drain delay
after the last) applied to the sorted copy of the score; the sorted copy
lists the timestamps in ascending order and is a permutation of the recorded
score. -/
theorem play_score_refines_spec (instruments : List (Nat × Nat × Nat)) (score : Score) :
    play_score instruments score none =
        instrumentCalls instruments ++ playbackSpec 0 (sortScore score) ∧
      keySorted (sortScore score) ∧
      List.Perm (sortScore score) score := by
  refine ⟨?_, sortScore_sorted score, sortScore_perm score⟩
  unfold play_score
  rw [playLoop_none]

/-- Witness for C5: the spec's own bucket pattern {0, 500, 1000}: no sleep
before the bucket at 0, one 500 ms wait between buckets, the drain at the
end. -/
theorem play_score_refines_spec_witness :
    play_score [(1, 25, 0)]
        [(500, [.end_note false 60 1]), (0, [.start_note false 60 1 90]),
          (1000, [.control_change 1 7 64])] none =
      [.set_instrument 1 25 0, .play_note 60 1 90, .sleep 500, .stop_note 60 1,
        .sleep 500, .control_change 1 7 64, .sleep drainMs] := by
  have h := (play_score_refines_spec [(1, 25, 0)]
    [(500, [.end_note false 60 1]), (0, [.start_note false 60 1 90]),
      (1000, [.control_change 1 7 64])]).1
  rw [h]
  decide

/-- C6 counterexample: with a predicate that fires on the second poll, the
trace after the first bucket's events still contains one further sink call —
the drain `synth.sleep(2)` of line 101, which runs even after `break` — so
"no sink calls beyond the first timestamp's events" is refuted. -/
theorem play_score_cancel_drain_counterexample :
    play_score [] [(0, [.start_note false 60 1 90]), (500, [.control_change 1 7 64])]
          (some (fun i => decide (0 < i))) =
        [.play_note 60 1 90, .sleep drainMs] ∧
      [SinkCall.play_note 60 1 90, .sleep drainMs] ≠ [SinkCall.play_note 60 1 90] := by
  refine ⟨by decide, by decide⟩

/-- C6 (amended): if the cancellation predicate is false on the first poll
and true on the second, `play_score` performs the instrument setup, the first
timestamp's wait (when positive) and events, and then stops — no wait or
event of any later timestamp is dispatched — but it still issues the fixed
drain sleep before returning. -/
theorem play_score_cancel_second (instruments : List (Nat × Nat × Nat)) (score : Score)
    (b1 b2 : Int × List ScoreEvent) (rest : Score) (f : Nat → Bool)
    (hsort : sortScore score = b1 :: b2 :: rest)
    (h0 : f 0 = false) (h1 : f 1 = true) :
    play_score instruments score (some f) =
      instrumentCalls instruments ++
        ((if 0 < b1.1 then [.sleep b1.1] else []) ++ dispatchBucket b1.2 ++
          [.sleep drainMs]) := by
  unfold play_score
  rw [hsort]
  obtain ⟨s1, evs1⟩ := b1
  obtain ⟨s2, evs2⟩ := b2
  simp only [playLoop, pollStop, h0, h1, Bool.false_eq_true, if_false, if_true]
  simp [sub_zero, List.append_assoc]

/-- Witness for the amended C6 at a concrete two-bucket score. -/
theorem play_score_cancel_second_witness :
    play_score [] [(0, [.start_note false 60 1 90]), (500, [.control_change 1 7 64])]
        (some (fun i => decide (0 < i))) =
      [.play_note 60 1 90, .sleep drainMs] := by
  have h := play_score_cancel_second []
    [(0, [.start_note false 60 1 90]), (500, [.control_change 1 7 64])]
    (0, [.start_note false 60 1 90]) (500, [.control_change 1 7 64]) []
    (fun i => decide (0 < i)) (by decide) (by decide) (by decide)
  rw [h]
  decide

/-! ## The sequencer object state (C10) -/

structure SequencerState where
  score : Score
  instruments : List (Nat × Nat × Nat)
deriving DecidableEq

/-- `Sequencer.play_score` as a method on the sequencer state: the body reads
`self.score` into a locally sorted copy (`SortedDict(self.score)`) and reads
`self.instruments`; it assigns to no attribute of `self`, so the state it
returns alongside the trace is the state it was given. -/
def Sequencer_play_score (seq : SequencerState) (stop : Option (Nat → Bool)) :
    List SinkCall × SequencerState :=
  (play_score seq.instruments seq.score stop, seq)

/-- C10: `play_score` never mutates the sequencer — after the call (with or
without cancellation) the score mapping and the instrument list are exactly
what they were before, playback having iterated a freshly built sorted copy. -/
theorem play_score_frame (seq : SequencerState) (stop : Option (Nat → Bool)) :
    (Sequencer_play_score seq stop).2 = seq ∧
      (Sequencer_play_score seq stop).1 =
        instrumentCalls seq.instruments ++ playLoop stop 0 0 (sortScore seq.score) := by
  exact ⟨rfl, rfl⟩

/-- Witness for C10 at a concrete sequencer state and a firing stop
predicate. -/
theorem play_score_frame_witness :
    (Sequencer_play_score ⟨[(0, [.start_note false 60 1 90])], [(1, 25, 0)]⟩
        (some (fun _ => true))).2 =
      ⟨[(0, [.start_note false 60 1 90])], [(1, 25, 0)]⟩ :=
  (play_score_frame ⟨[(0, [.start_note false 60 1 90])], [(1, 25, 0)]⟩
    (some (fun _ => true))).1

/-! ## save_tracks / load_tracks (sequencer2.py lines 103-120)

`save_tracks` serializes `{'instruments': self.instruments, 'score':
dict(SortedDict(self.score))}`; JSON turns the integer score keys into their
decimal string representations, and `load_tracks` converts them back with
`int(k)`.  The JSON document writer/reader itself (`mingus.tools.mingus_json`)
is not among the sources under verification; it is modelled from the spec
("Round-trip must be lossless for all event fields and timestamps") as the
identity on the instrument entries and on the event lists, while the
timestamp-key string conversion — the one transformation `load_tracks`
explicitly undoes — is modelled by the decimal codec below and proved to be
its own inverse. -/

/-- Little-endian decimal digits of `n` (empty for 0), fuel-style. -/
def natDigitsRev : Nat → Nat → List Nat
  | 0, _ => []
  | fuel + 1, n => if n = 0 then [] else n % 10 :: natDigitsRev fuel (n / 10)

/-- The decimal-digit string `str(n)` for a natural number. -/
def natDecimalDigits (n : Nat) : List Nat :=
  if n = 0 then [0] else (natDigitsRev n n).reverse

/-- The decimal string `str(k)` of an integer key: sign flag and digits. -/
def encodeKey (k : Int) : Bool × List Nat :=
  (decide (k < 0), natDecimalDigits k.natAbs)

/-- Python `int(s)` on such a string. -/
def decodeKey (s : Bool × List Nat) : Int :=
  let v : Nat := s.2.foldl (fun a d => 10 * a + d) 0
  if s.1 then -(v : Int) else (v : Int)

theorem natDigitsRev_val : ∀ fuel n, n ≤ fuel →
    (natDigitsRev fuel n).foldr (fun d acc => 10 * acc + d) 0 = n := by
  intro fuel
  induction fuel with
  | zero => intro n h; interval_cases n; rfl
  | succ fuel ih =>
    intro n h
    by_cases h0 : n = 0
    · subst h0; rfl
    · have hfuel : n / 10 ≤ fuel := by omega
      show List.foldr _ 0 (if n = 0 then [] else n % 10 :: natDigitsRev fuel (n / 10)) = n
      rw [if_neg h0]
      simp only [List.foldr_cons]
      rw [ih (n / 10) hfuel]
      omega

theorem decodeKey_encodeKey (k : Int) : decodeKey (encodeKey k) = k := by
  have hval : (natDecimalDigits k.natAbs).foldl (fun a d => 10 * a + d) 0 = k.natAbs := by
    unfold natDecimalDigits
    by_cases h0 : k.natAbs = 0
    · rw [if_pos h0, h0]; rfl
    · rw [if_neg h0, List.foldl_reverse]
      have h := natDigitsRev_val k.natAbs k.natAbs le_rfl
      calc List.foldr (fun x y => 10 * y + x) 0 (natDigitsRev k.natAbs k.natAbs)
          = List.foldr (fun d acc => 10 * acc + d) 0 (natDigitsRev k.natAbs k.natAbs) := rfl
        _ = k.natAbs := h
  unfold decodeKey encodeKey
  simp only [hval]
  by_cases hneg : k < 0
  · rw [if_pos (by simpa using hneg)]
    omega
  · rw [if_neg (by simpa using hneg)]
    omega

/-- The document written by `save_tracks`: the instrument list and the sorted
score with decimal-string keys. -/
def save_tracks (instruments : List (Nat × Nat × Nat)) (score : Score) :
    List (Nat × Nat × Nat) × List ((Bool × List Nat) × List ScoreEvent) :=
  (instruments, (sortScore score).map (fun b => (encodeKey b.1, b.2)))

/-- `load_tracks`: instruments taken as stored, score keys converted back to
integers with `int(k)`. -/
def load_tracks (doc : List (Nat × Nat × Nat) × List ((Bool × List Nat) × List ScoreEvent)) :
    List (Nat × Nat × Nat) × Score :=
  (doc.1, doc.2.map (fun b => (decodeKey b.1, b.2)))

/-- C8: loading what `save_tracks` wrote restores the instrument list and a
score equal bucket-for-bucket to the recorded one: the same integer
timestamps carrying the same event lists in the same per-timestamp order
(the reloaded association list is the key-sorted permutation of the original
— the mapping itself is unchanged). -/
theorem save_load_roundtrip (instruments : List (Nat × Nat × Nat)) (score : Score) :
    load_tracks (save_tracks instruments score) = (instruments, sortScore score) ∧
      List.Perm (sortScore score) score ∧
      keySorted (sortScore score) := by
  refine ⟨?_, sortScore_perm score, sortScore_sorted score⟩
  unfold load_tracks save_tracks
  simp only [List.map_map]
  refine Prod.ext rfl ?_
  show List.map (fun b => (decodeKey (encodeKey b.1), b.2)) (sortScore score) = sortScore score
  have h : ∀ b : Int × List ScoreEvent, (decodeKey (encodeKey b.1), b.2) = b := by
    intro b
    rw [decodeKey_encodeKey]
  calc List.map (fun b => (decodeKey (encodeKey b.1), b.2)) (sortScore score)
      = List.map id (sortScore score) := List.map_congr_left (fun b _ => h b)
    _ = sortScore score := List.map_id _

/-- Witness for C8 at a two-bucket score recorded out of order. -/
theorem save_load_roundtrip_witness :
    load_tracks (save_tracks [(1, 25, 0)]
        [(500, [.end_note false 60 1]), (0, [.start_note false 60 1 90])]) =
      ([(1, 25, 0)],
        [(0, [.start_note false 60 1 90]), (500, [.end_note false 60 1])]) := by
  have h := (save_load_roundtrip [(1, 25, 0)]
    [(500, [.end_note false 60 1]), (0, [.start_note false 60 1 90])]).1
  rw [h]
  decide

end Mingus
